import Mathlib

/-!
Verification of the dining-philosophers arbitration program
(frferrari/godiningphilosophers, philosophers.go).

The program has three parts:
* the arbitration authority `Host`, a sequential loop over a shared request
  channel holding a map `philosophersEating` of currently-admitted ids;
* the actor lifecycle `Philosopher.eat`, a loop driven by the boolean replies
  the host sends on the actor's private channel;
* the coordinator `main`, which wires the ring, initializes a wait group to
  `maxPhilosophers * maxTimeToEat` and closes the request channel once the
  wait group reaches zero.

Each Go fragment is embedded as an executable Lean definition below, keeping
the source's names and branch structure; theorems about those definitions
settle the specification claims.
-/

/-- Source constant: there are five philosophers around the table. -/
def maxPhilosophers : Nat := 5

/-- Source constant: philosophers can eat at most 3 times. -/
def maxTimeToEat : Nat := 3

/-- Source constant: the command string of a want-to-eat request. -/
def wantToEat : String := "wantToEat"

/-- Source constant: the command string of a finished-eating request. -/
def finishedEating : String := "finishedEating"

/-- A request sent to the host.  The Go struct carries a whole `Philosopher`
value, but the host only ever reads its `id` field (and uses its reply
channel to answer), so the embedding keeps the id. -/
structure Request where
  command : String
  philosopher : Nat
deriving DecidableEq

/-- What the host does on the requester's private reply channel while
processing one request: `AcceptRequestToEat` sends `true`, `RejectRequestToEat`
sends `false` (with a printed reason), or no message at all is sent. -/
inductive HostOutput where
  | accept : HostOutput
  | reject : String → HostOutput
  | noReply : HostOutput
deriving DecidableEq

/-- The boolean messages a `HostOutput` puts on the requester's channel:
`AcceptRequestToEat` sends exactly one `true`, `RejectRequestToEat` exactly
one `false`, and the `finishedEating` / unknown-command paths send nothing. -/
def replies : HostOutput → List Bool
  | HostOutput.accept => [true]
  | HostOutput.reject _ => [false]
  | HostOutput.noReply => []

/-- The single key of the `philosophersEating` map when it has exactly one
entry (the source's `keys[0]`, obtained by ranging over the map).  Folding
`max` over the key set returns that unique key when the set is a singleton
of naturals. -/
def keys0 (philosophersEating : Finset Nat) : Nat :=
  philosophersEating.fold max 0 id

/-- One iteration of the `Host` loop (philosophers.go lines 139-172): given
the current `philosophersEating` map (its key set) and the received request,
return the updated key set together with what was sent on the requester's
reply channel.  The branch structure follows the source exactly:
* `wantToEat`, empty map: insert the requester and accept;
* `wantToEat`, one entry: two wraparound special cases comparing against the
  literal `maxPhilosophers` (= 5, as in the source, not 4), then the
  `math.Abs(float64(asking-current)) == 1.0` test (exact for these small
  integers, embedded as an integer absolute value), then the already-eating
  test, otherwise accept WITHOUT inserting (the source has no insertion on
  this path);
* `wantToEat`, otherwise: reject for capacity;
* `finishedEating`: delete the requester's key, no reply;
* any other command: the Go switch has no default case, so nothing happens. -/
def hostStep (philosophersEating : Finset Nat) (request : Request) :
    Finset Nat × HostOutput :=
  if request.command = wantToEat then
    if philosophersEating.card = 0 then
      (insert request.philosopher philosophersEating, HostOutput.accept)
    else if philosophersEating.card = 1 then
      if keys0 philosophersEating = 0 ∧ request.philosopher = maxPhilosophers then
        (philosophersEating, HostOutput.reject "Neighborhood 0-")
      else if keys0 philosophersEating = maxPhilosophers ∧ request.philosopher = 0 then
        (philosophersEating, HostOutput.reject "Neiborhood -0")
      else if ((request.philosopher : Int) - (keys0 philosophersEating : Int)).natAbs = 1 then
        (philosophersEating, HostOutput.reject "Neighborhood")
      else if request.philosopher = keys0 philosophersEating then
        (philosophersEating, HostOutput.reject "Philosopher alread eating")
      else
        (philosophersEating, HostOutput.accept)
    else
      (philosophersEating, HostOutput.reject "All allowed philoshopers are already eating")
  else if request.command = finishedEating then
    (philosophersEating.erase request.philosopher, HostOutput.noReply)
  else
    (philosophersEating, HostOutput.noReply)

/-- The authority states reachable from the empty admission set under
arbitrary sequences of requests processed by the host loop. -/
inductive HostReachable : Finset Nat → Prop where
  | init : HostReachable ∅
  | step (s : Finset Nat) (request : Request) :
      HostReachable s → HostReachable (hostStep s request).1

/-- Ring adjacency on the 5-ring as the specification states it:
modular distance 1, including the wraparound pair. -/
def ringAdjacent (x y : Nat) : Prop :=
  ((x : Int) - (y : Int)).natAbs % 5 = 1 ∨ ((x : Int) - (y : Int)).natAbs % 5 = 4

/-- C1: the claim states that with admission set {0}, a want-to-eat request
from philosopher 4 must be rejected (0 and 4 are wraparound ring neighbours,
sharing chopstick 0).  The host instead accepts it: its wraparound special
cases compare ids against the literal `maxPhilosophers` (5), which no id
0..4 ever equals, and the absolute-difference test sees 4, not 1.  The same
happens symmetrically with admission set {4} and requester 0.  This
contradicts the host's own documentation (the two philosophers eating at
the same time cannot be neighbours) and is flagged as a bug by the spec. -/
theorem host_admits_wraparound_neighbor :
    (hostStep {0} (Request.mk wantToEat 4)).2 = HostOutput.accept ∧
    (hostStep {4} (Request.mk wantToEat 0)).2 = HostOutput.accept := by
  constructor <;> rfl

/-- C2: the claim states that after want(0) and want(2) are both admitted
from the empty set, the admission set has exactly two members and want(3)
is rejected for capacity.  In the source the one-member accept path never
inserts the requester, so after the two admissions the set is still {0}
(size 1, not 2), and want(3) is then accepted, not rejected. -/
theorem host_admits_third_eater :
    (hostStep ∅ (Request.mk wantToEat 0)).2 = HostOutput.accept ∧
    (hostStep (hostStep ∅ (Request.mk wantToEat 0)).1 (Request.mk wantToEat 2)).2
      = HostOutput.accept ∧
    ((hostStep (hostStep ∅ (Request.mk wantToEat 0)).1 (Request.mk wantToEat 2)).1).card = 1 ∧
    (hostStep
      (hostStep (hostStep ∅ (Request.mk wantToEat 0)).1 (Request.mk wantToEat 2)).1
      (Request.mk wantToEat 3)).2 = HostOutput.accept := by
  refine ⟨rfl, rfl, rfl, rfl⟩

/-- Case analysis on how one host step can change the admission set: it
inserts the requester (only from the empty set), leaves the set unchanged,
or erases the requester. -/
theorem hostStep_set_cases (s : Finset Nat) (r : Request) :
    (s.card = 0 ∧ (hostStep s r).1 = insert r.philosopher s) ∨
    (hostStep s r).1 = s ∨ (hostStep s r).1 = s.erase r.philosopher := by
  unfold hostStep
  split_ifs <;> simp_all

/-- Invariant of the host loop: the admission set never holds more than one
id, because the only insertion is on the empty-set path. -/
theorem hostReachable_card_le_one (s : Finset Nat) (h : HostReachable s) :
    s.card ≤ 1 := by
  induction h with
  | init => simp
  | step s r _ ih =>
    rcases hostStep_set_cases s r with ⟨h0, he⟩ | he | he <;> rw [he]
    · rw [Finset.card_eq_zero.mp h0]
      simp
    · exact ih
    · exact le_trans (Finset.card_erase_le) ih

/-- C3: for every reachable authority state the admission set has at most
one member, because an admission while the set has exactly one member
replies true without inserting the requester: the result set of any
want-to-eat step from a one-member state equals the state itself, so only
the empty-set branch ever inserts. -/
theorem host_admission_set_at_most_one :
    (∀ s : Finset Nat, HostReachable s → s.card ≤ 1) ∧
    (∀ (s : Finset Nat) (r : Request), s.card = 1 → r.command = wantToEat →
      (hostStep s r).1 = s) := by
  refine ⟨hostReachable_card_le_one, ?_⟩
  intro s r h1 hc
  unfold hostStep
  split_ifs <;> simp_all

/-- Witness for C3 at the reachable one-member state {2} and a want-to-eat
request from philosopher 0. -/
theorem host_admission_set_at_most_one_witness :
    ({2} : Finset Nat).card ≤ 1 ∧
    (hostStep {2} (Request.mk wantToEat 0)).1 = {2} := by
  constructor
  · exact host_admission_set_at_most_one.1 {2}
      (by simpa [hostStep, wantToEat] using
        HostReachable.step ∅ (Request.mk wantToEat 2) HostReachable.init)
  · exact host_admission_set_at_most_one.2 {2} (Request.mk wantToEat 0) rfl rfl

/-- C4: in every reachable authority state no two distinct members of the
admission set are ring-adjacent; in particular the adjacent pairs {0,1} and
{4,0} are never both members.  (The set never holds two distinct ids at
all, so no adjacent pair can occur.) -/
theorem host_no_adjacent_members (s : Finset Nat) (h : HostReachable s) :
    (∀ x ∈ s, ∀ y ∈ s, x ≠ y → ¬ ringAdjacent x y) ∧
    ¬ (({0, 1} : Finset Nat) ⊆ s) ∧ ¬ (({4, 0} : Finset Nat) ⊆ s) := by
  have hcard := hostReachable_card_le_one s h
  have huniq : ∀ x ∈ s, ∀ y ∈ s, x = y := Finset.card_le_one.mp hcard
  refine ⟨fun x hx y hy hxy _ => hxy (huniq x hx y hy), ?_, ?_⟩
  · intro hsub
    have h0 : (0 : Nat) ∈ s := hsub (by simp)
    have h1 : (1 : Nat) ∈ s := hsub (by simp)
    simpa using huniq 0 h0 1 h1
  · intro hsub
    have h4 : (4 : Nat) ∈ s := hsub (by simp)
    have h0 : (0 : Nat) ∈ s := hsub (by simp)
    simpa using huniq 4 h4 0 h0

/-- Witness for C4 at the reachable state ∅. -/
theorem host_no_adjacent_members_witness :
    (∀ x ∈ (∅ : Finset Nat), ∀ y ∈ (∅ : Finset Nat), x ≠ y → ¬ ringAdjacent x y) ∧
    ¬ (({0, 1} : Finset Nat) ⊆ (∅ : Finset Nat)) ∧
    ¬ (({4, 0} : Finset Nat) ⊆ (∅ : Finset Nat)) :=
  host_no_adjacent_members ∅ HostReachable.init

/-- C5: in every reachable authority state the admission set has at most 2
members (in the source it in fact never exceeds 1). -/
theorem host_admission_set_at_most_two (s : Finset Nat) (h : HostReachable s) :
    s.card ≤ 2 :=
  le_trans (hostReachable_card_le_one s h) (by norm_num)

/-- Witness for C5 at the reachable state ∅. -/
theorem host_admission_set_at_most_two_witness : (∅ : Finset Nat).card ≤ 2 :=
  host_admission_set_at_most_two ∅ HostReachable.init

/-- C6: processing any want-to-eat request sends exactly one boolean reply
on the requester's channel, through exactly one of the accept or reject
paths. -/
theorem host_wantToEat_exactly_one_reply (s : Finset Nat) (r : Request)
    (h : r.command = wantToEat) :
    (replies (hostStep s r).2).length = 1 ∧
    ((hostStep s r).2 = HostOutput.accept ∨
      ∃ reason, (hostStep s r).2 = HostOutput.reject reason) := by
  unfold hostStep
  split_ifs <;> simp_all [replies]

/-- Witness for C6: the first want-to-eat request from philosopher 0 on the
empty set gets exactly one reply through the accept path. -/
theorem host_wantToEat_exactly_one_reply_witness :
    (replies (hostStep ∅ (Request.mk wantToEat 0)).2).length = 1 ∧
    ((hostStep ∅ (Request.mk wantToEat 0)).2 = HostOutput.accept ∨
      ∃ reason, (hostStep ∅ (Request.mk wantToEat 0)).2 = HostOutput.reject reason) :=
  host_wantToEat_exactly_one_reply ∅ (Request.mk wantToEat 0) rfl

/-- C7: processing finished-eating from philosopher x deletes x from the
admission set and sends no reply; when x is not a member the deletion is an
idempotent no-op leaving the set unchanged. -/
theorem host_finishedEating_removes_requester (s : Finset Nat) (x : Nat) :
    (hostStep s (Request.mk finishedEating x)).1 = s.erase x ∧
    replies (hostStep s (Request.mk finishedEating x)).2 = [] ∧
    (x ∉ s → (hostStep s (Request.mk finishedEating x)).1 = s) := by
  refine ⟨rfl, rfl, fun hx => ?_⟩
  show s.erase x = s
  exact Finset.erase_eq_of_not_mem hx

/-- Witness for C7: finished-eating from 3, which is not a member of {1},
leaves the set unchanged and sends nothing. -/
theorem host_finishedEating_removes_requester_witness :
    (hostStep {1} (Request.mk finishedEating 3)).1 = ({1} : Finset Nat).erase 3 ∧
    replies (hostStep {1} (Request.mk finishedEating 3)).2 = [] ∧
    ((3 : Nat) ∉ ({1} : Finset Nat) → (hostStep {1} (Request.mk finishedEating 3)).1 = {1}) :=
  host_finishedEating_removes_requester {1} 3

/-- On a want-to-eat request the host either inserts the requester or
leaves the admission set as it was. -/
theorem hostStep_wantToEat_cases (s : Finset Nat) (r : Request)
    (h : r.command = wantToEat) :
    (hostStep s r).1 = insert r.philosopher s ∨ (hostStep s r).1 = s := by
  unfold hostStep
  split_ifs <;> simp_all

/-- On a finished-eating request the host erases the requester's id and
sends no reply. -/
theorem hostStep_finishedEating_eq (s : Finset Nat) (r : Request)
    (h : r.command = finishedEating) :
    hostStep s r = (s.erase r.philosopher, HostOutput.noReply) := by
  unfold hostStep
  rw [h]
  rw [if_neg (by decide), if_pos rfl]

/-- C10: frame conditions of the host loop.  A want-to-eat step never
removes an existing member and adds at most the requester; a
finished-eating step adds no member and removes at most the requester; a
request with any other command leaves the admission set unchanged and sends
no reply. -/
theorem host_frame_conditions (s : Finset Nat) (r : Request) :
    (r.command = wantToEat →
      s ⊆ (hostStep s r).1 ∧ (hostStep s r).1 ⊆ insert r.philosopher s) ∧
    (r.command = finishedEating →
      (hostStep s r).1 ⊆ s ∧ s ⊆ insert r.philosopher (hostStep s r).1) ∧
    (r.command ≠ wantToEat → r.command ≠ finishedEating →
      (hostStep s r).1 = s ∧ replies (hostStep s r).2 = []) := by
  refine ⟨fun hw => ?_, fun hf => ?_, fun hnw hnf => ?_⟩
  · rcases hostStep_wantToEat_cases s r hw with he | he <;> rw [he]
    · exact ⟨Finset.subset_insert _ _, by rfl⟩
    · exact ⟨by rfl, Finset.subset_insert _ _⟩
  · rw [hostStep_finishedEating_eq s r hf]
    constructor
    · exact Finset.erase_subset _ _
    · intro a ha
      rcases eq_or_ne a r.philosopher with h | h
      · exact h ▸ Finset.mem_insert_self _ _
      · exact Finset.mem_insert_of_mem (Finset.mem_erase.mpr ⟨h, ha⟩)
  · unfold hostStep
    rw [if_neg hnw, if_neg hnf]
    exact ⟨rfl, rfl⟩

/-- Witness for C10 at the state {0} with an unknown command, also
instantiating the want-to-eat and finished-eating conjuncts. -/
theorem host_frame_conditions_witness :
    ({0} : Finset Nat) ⊆ (hostStep {0} (Request.mk wantToEat 2)).1 ∧
    (hostStep {0} (Request.mk finishedEating 0)).1 ⊆ ({0} : Finset Nat) ∧
    (hostStep {0} (Request.mk "think" 2)).1 = ({0} : Finset Nat) ∧
    replies (hostStep {0} (Request.mk "think" 2)).2 = [] := by
  refine ⟨?_, ?_, ?_, ?_⟩
  · exact (host_frame_conditions {0} (Request.mk wantToEat 2)).1 rfl |>.1
  · exact (host_frame_conditions {0} (Request.mk finishedEating 0)).2.1 rfl |>.1
  · exact ((host_frame_conditions {0} (Request.mk "think" 2)).2.2 (by decide) (by decide)).1
  · exact ((host_frame_conditions {0} (Request.mk "think" 2)).2.2 (by decide) (by decide)).2

/-- The observable outcome of one run of the Philosopher.eat loop
(philosophers.go lines 51-78): the final countEating, the number of
wantToEat requests sent, the number of wg.Done decrements performed, the
number of finishedEating messages sent, and whether the private feedback
channel was closed on exit (line 77, always executed after the loop). -/
structure EatResult where
  countEating : Nat
  requests : Nat
  dones : Nat
  finishedSent : Nat
  closed : Bool
deriving DecidableEq

/-- The Philosopher.eat loop, driven by the stream of boolean replies the
host puts on the philosopher's feedback channel.  Each iteration first
checks countEating < maxTimeToEat; if so it sends one wantToEat request and
consumes one reply; on a true reply it locks and unlocks the chopsticks,
increments countEating, calls wg.Done and sends finishedEating; on a false
reply it just loops.  When the guard fails the loop exits, no further
request is sent, and the feedback channel is closed. -/
def eatAux : Nat → List Bool → EatResult
  | countEating, [] => EatResult.mk countEating 0 0 0 true
  | countEating, isPhilosopherAllowedToEat :: rest =>
    if countEating < maxTimeToEat then
      if isPhilosopherAllowedToEat then
        EatResult.mk (eatAux (countEating + 1) rest).countEating
          ((eatAux (countEating + 1) rest).requests + 1)
          ((eatAux (countEating + 1) rest).dones + 1)
          ((eatAux (countEating + 1) rest).finishedSent + 1)
          (eatAux (countEating + 1) rest).closed
      else
        EatResult.mk (eatAux countEating rest).countEating
          ((eatAux countEating rest).requests + 1)
          (eatAux countEating rest).dones
          (eatAux countEating rest).finishedSent
          (eatAux countEating rest).closed
    else
      EatResult.mk countEating 0 0 0 true

/-- Philosopher.eat initializes countEating to 0 (line 52) before the loop. -/
def philosopherEat (feedback : List Bool) : EatResult :=
  eatAux 0 feedback

/-- The eat-count never decreases from wherever the loop starts. -/
theorem eatAux_count_mono (rs : List Bool) :
    ∀ c, c ≤ (eatAux c rs).countEating := by
  induction rs with
  | nil => intro c; simp [eatAux]
  | cons r rest ih =>
    intro c
    simp only [eatAux]
    split_ifs with h1 h2
    · exact le_trans (Nat.le_succ c) (ih (c + 1))
    · exact ih c
    · simp

/-- The eat-count never exceeds the quota. -/
theorem eatAux_count_le (rs : List Bool) :
    ∀ c, c ≤ maxTimeToEat → (eatAux c rs).countEating ≤ maxTimeToEat := by
  induction rs with
  | nil => intro c hc; simpa [eatAux] using hc
  | cons r rest ih =>
    intro c hc
    simp only [eatAux]
    split_ifs with h1 h2
    · exact ih (c + 1) h1
    · exact ih c hc
    · simpa using hc

/-- Once the quota is reached the loop sends nothing further and exits with
the channel closed. -/
theorem eatAux_at_quota (rs : List Bool) :
    eatAux maxTimeToEat rs = EatResult.mk maxTimeToEat 0 0 0 true := by
  cases rs <;> simp [eatAux]

/-- Given at least enough true replies, the loop ends with the eat-count at
exactly the quota. -/
theorem eatAux_reaches_quota (rs : List Bool) :
    ∀ c, c ≤ maxTimeToEat → maxTimeToEat - c ≤ List.count true rs →
      (eatAux c rs).countEating = maxTimeToEat := by
  induction rs with
  | nil =>
    intro c hc hcount
    simp only [List.count_nil] at hcount
    simp only [eatAux]
    omega
  | cons r rest ih =>
    intro c hc hcount
    simp only [eatAux]
    split_ifs with h1 h2
    · refine ih (c + 1) h1 ?_
      simp only [List.count_cons, h2] at hcount
      simp at hcount
      omega
    · refine ih c hc ?_
      simp only [List.count_cons] at hcount
      simp [h2] at hcount
      omega
    · simp
      omega

/-- The number of wg.Done decrements equals the number of meals gained. -/
theorem eatAux_dones_eq (rs : List Bool) :
    ∀ c, (eatAux c rs).dones = (eatAux c rs).countEating - c := by
  induction rs with
  | nil => intro c; simp [eatAux]
  | cons r rest ih =>
    intro c
    simp only [eatAux]
    split_ifs with h1 h2
    · have hm := eatAux_count_mono rest (c + 1)
      have := ih (c + 1)
      simp only []
      omega
    · have := ih c
      simpa using this
    · simp

/-- C8: for every reply stream, the eat-count starts at 0 (philosopherEat
runs eatAux from 0), never decreases from any intermediate value, increases
by exactly one per admitted meal (final count = start + number of completed
meals), never exceeds the quota maxTimeToEat = 3, reaches exactly the quota
whenever the host grants at least 3 admissions, and once at the quota the
loop exits immediately: it sends no further request, performs no further
meal, and the feedback channel is closed. -/
theorem philosopher_eat_count_spec :
    (∀ rs : List Bool, philosopherEat rs = eatAux 0 rs) ∧
    (∀ (rs : List Bool) (c : Nat), c ≤ (eatAux c rs).countEating) ∧
    (∀ (rs : List Bool) (c : Nat),
      (eatAux c rs).countEating = c + (eatAux c rs).dones) ∧
    (∀ rs : List Bool, (philosopherEat rs).countEating ≤ maxTimeToEat) ∧
    (∀ rs : List Bool, maxTimeToEat ≤ List.count true rs →
      (philosopherEat rs).countEating = maxTimeToEat) ∧
    (∀ rs : List Bool, eatAux maxTimeToEat rs = EatResult.mk maxTimeToEat 0 0 0 true) := by
  refine ⟨fun rs => rfl, fun rs c => eatAux_count_mono rs c, fun rs c => ?_,
    fun rs => eatAux_count_le rs 0 (by norm_num), fun rs h => ?_,
    fun rs => eatAux_at_quota rs⟩
  · have h1 := eatAux_dones_eq rs c
    have h2 := eatAux_count_mono rs c
    omega
  · exact eatAux_reaches_quota rs 0 (by norm_num) (by simpa using h)

/-- Witness for C8 on the concrete reply stream true, false, true, true:
the count reaches exactly the quota. -/
theorem philosopher_eat_count_spec_witness :
    (philosopherEat [true, false, true, true]).countEating = maxTimeToEat :=
  philosopher_eat_count_spec.2.2.2.2.1 [true, false, true, true] (by decide)

/-- The side effects of one admitted iteration of Philosopher.eat, in
program order (philosophers.go lines 61-73; prints and sleeps omitted):
lock left chopstick, lock right chopstick, unlock right, unlock left,
increment countEating, wg.Done, send finishedEating. -/
inductive EatEvent where
  | lockLeft : EatEvent
  | lockRight : EatEvent
  | unlockRight : EatEvent
  | unlockLeft : EatEvent
  | incrementCount : EatEvent
  | wgDone : EatEvent
  | sendFinished : EatEvent
deriving DecidableEq, BEq

/-- The event sequence of one admitted iteration, read off the source. -/
def admittedIterationEvents : List EatEvent :=
  [EatEvent.lockLeft, EatEvent.lockRight, EatEvent.unlockRight,
   EatEvent.unlockLeft, EatEvent.incrementCount, EatEvent.wgDone,
   EatEvent.sendFinished]

/-- main initializes the wait group to maxPhilosophers * maxTimeToEat
(philosophers.go line 108: wg.Add(maxPhilosophers * maxTimeToEat)). -/
def initialMealCount : Nat := maxPhilosophers * maxTimeToEat

/-- Modelling main's shutdown (lines 124-126): wg.Wait returns, and the
shared request channel is then closed, exactly when the wait-group counter,
initialized to initialMealCount and decremented once per wg.Done, has
reached zero. -/
def mainClosesRequestChan (dones : Nat) : Prop :=
  initialMealCount - dones = 0

/-- C9: the completion counter is initialized to 5 * 3 = 15; within an
admitted iteration the single wg.Done happens after both chopstick releases
and before the finishedEating send; an actor that reaches its quota has
decremented the counter exactly maxTimeToEat = 3 times (so the five actors
together perform exactly 15 decrements); and the coordinator closes the
shared request channel exactly when the number of decrements performed
reaches the initial count. -/
theorem coordinator_completion_spec :
    initialMealCount = 15 ∧
    List.count EatEvent.wgDone admittedIterationEvents = 1 ∧
    List.indexOf EatEvent.unlockRight admittedIterationEvents
      < List.indexOf EatEvent.wgDone admittedIterationEvents ∧
    List.indexOf EatEvent.unlockLeft admittedIterationEvents
      < List.indexOf EatEvent.wgDone admittedIterationEvents ∧
    List.indexOf EatEvent.wgDone admittedIterationEvents
      < List.indexOf EatEvent.sendFinished admittedIterationEvents ∧
    (∀ rs : List Bool, maxTimeToEat ≤ List.count true rs →
      (philosopherEat rs).dones = maxTimeToEat) ∧
    (∀ d : Nat, d ≤ initialMealCount →
      (mainClosesRequestChan d ↔ d = maxPhilosophers * maxTimeToEat)) := by
  refine ⟨rfl, by decide, by decide, by decide, by decide, fun rs h => ?_, fun d hd => ?_⟩
  · have h1 := eatAux_dones_eq rs 0
    have h2 := eatAux_reaches_quota rs 0 (by norm_num) (by simpa using h)
    unfold philosopherEat
    omega
  · unfold mainClosesRequestChan initialMealCount maxPhilosophers maxTimeToEat at *
    omega

/-- Witness for C9: three granted meals give exactly three decrements, and
the channel-closing condition holds exactly at 15 decrements. -/
theorem coordinator_completion_spec_witness :
    (philosopherEat [true, true, true]).dones = maxTimeToEat ∧
    (mainClosesRequestChan 15 ↔ 15 = maxPhilosophers * maxTimeToEat) := by
  constructor
  · exact coordinator_completion_spec.2.2.2.2.2.1 [true, true, true] (by decide)
  · exact coordinator_completion_spec.2.2.2.2.2.2 15 (by decide)
